import Mathlib

/-!
Shallow embedding of the VIIRS nighttime-lights summary script
(`data7_code.py`).  The external collaborators (login, search, download,
raster open + clip) are modelled as an oracle `raster : String → Except
String (List ℚ)` mapping a downloaded file path to either the clipped
pixel array (flattened) or a raised error.  The extraction/aggregation
engine, the filename conventions and the reporter are translated
directly from the source.
-/

namespace Data7

/-- Model of Python `str.split(sep)` for a single-character separator,
over the character list of the string.  `"".split('.') == ['']`. -/
def pySplitChar (sep : Char) : List Char → List (List Char)
  | [] => [[]]
  | c :: rest =>
    let r := pySplitChar sep rest
    if c = sep then [] :: r
    else
      match r with
      | [] => [[c]]
      | h :: t => (c :: h) :: t

/-- Python `str.split(sep)` returning strings. -/
def pySplit (sep : Char) (s : String) : List String :=
  (pySplitChar sep s.toList).map (fun l => String.mk l)

/-- Model of `os.path.basename` on POSIX: the part of the path after the
last `/` (computed by a left fold that restarts at every separator). -/
def basenameChars (s : List Char) : List Char :=
  s.foldl (fun acc c => if c = '/' then [] else acc ++ [c]) []

/-- Model of `os.path.basename` on strings. -/
def pyBasename (s : String) : String := String.mk (basenameChars s.toList)

/-- Model of `file_path.endswith('.h5')` (line 109 of the source). -/
def endsWithH5 (s : String) : Bool := List.isSuffixOf ['.', 'h', '5'] s.toList

/-- Model of `filename.split('.')[1][1:]` (line 127 of the source): split
the basename on `.`, take the field at index 1, drop its first
character.  Indexing out of range is an `IndexError` in Python, modelled
by `none` (it would be caught by the surrounding `except`). -/
def dateToken (filename : String) : Option String :=
  ((pySplit '.' filename)[1]?).map (fun f => f.drop 1)

/-- Insertion into a sorted list of rationals (helper for the sort
underlying `np.median`). -/
def insertSorted (x : ℚ) : List ℚ → List ℚ
  | [] => [x]
  | y :: ys => if x ≤ y then x :: y :: ys else y :: insertSorted x ys

/-- Sorting of the pixel values, as `np.median` sorts its input. -/
def sortRat (l : List ℚ) : List ℚ := l.foldr insertSorted []

/-- Model of `np.mean`: sum divided by length. -/
def npMean (l : List ℚ) : ℚ := l.sum / (l.length : ℚ)

/-- Model of `np.median`: middle element of the sorted list when the
length is odd, average of the two middle elements when even. -/
def npMedian (l : List ℚ) : ℚ :=
  if (sortRat l).length % 2 = 1 then (sortRat l).getD ((sortRat l).length / 2) 0
  else
    ((sortRat l).getD ((sortRat l).length / 2 - 1) 0
      + (sortRat l).getD ((sortRat l).length / 2) 0) / 2

/-- One row of the output table (the dict appended to `processed_data`
at lines 129-134 of the source), with the fields in insertion order. -/
structure BrightnessRecord where
  date : String
  mean_brightness : ℚ
  median_brightness : ℚ
  file : String
  deriving DecidableEq, Repr

/-- Outcome of the loop body for one downloaded file path:
silently skipped (extension filter), failed (exception caught, diagnostic
printed), no valid pixels (no record), or a record appended. -/
inductive FileOutcome where
  | skipped : FileOutcome
  | failed : String → FileOutcome
  | empty : FileOutcome
  | record : BrightnessRecord → FileOutcome
  deriving DecidableEq, Repr

/-- The body of the `for file_path in downloaded_files` loop
(lines 108-140 of the source).  `raster` models `rasterio.open` followed
by `mask(src, [philly_geom], crop=True)` flattened to the pixel list, or
the exception either step raises. -/
def processFile (raster : String → Except String (List ℚ))
    (file_path : String) : FileOutcome :=
  if endsWithH5 file_path then
    match raster file_path with
    | Except.error e => FileOutcome.failed e
    | Except.ok out_image =>
      let valid_data := out_image.filter (fun x => decide (0 < x))
      if 0 < valid_data.length then
        let filename := pyBasename file_path
        match dateToken filename with
        | none => FileOutcome.failed "IndexError"
        | some date_str =>
          FileOutcome.record
            { date := date_str
              mean_brightness := npMean valid_data
              median_brightness := npMedian valid_data
              file := filename }
      else FileOutcome.empty
  else FileOutcome.skipped

/-- The record an outcome contributes to `processed_data`, if any. -/
def recordOf : FileOutcome → Option BrightnessRecord
  | FileOutcome.record r => some r
  | _ => none

/-- Whether the loop body prints the per-file failure diagnostic
(`print(f"  ✗ 处理失败: {e}")`, line 139 of the source). -/
def emitsDiagnostic : FileOutcome → Bool
  | FileOutcome.failed _ => true
  | _ => false

/-- The whole loop: fold over the downloaded file paths, appending each
produced record to the accumulated `processed_data` list. -/
def runBatch (raster : String → Except String (List ℚ))
    (files : List String) : List BrightnessRecord :=
  files.foldl (fun acc fp =>
    match recordOf (processFile raster fp) with
    | some r => acc ++ [r]
    | none => acc) []

/-- The `OUTPUT_DIR` constant of the source. -/
def OUTPUT_DIR : String := "viirs_data"

/-- Model of `os.path.join` for a relative second component. -/
def joinPath (a b : String) : String := a ++ "/" ++ b

/-- The fixed output path `os.path.join(OUTPUT_DIR,
'viirs_philadelphia_summary.csv')`. -/
def output_csv : String := joinPath OUTPUT_DIR "viirs_philadelphia_summary.csv"

/-- Column names of the summary table, in the dict-insertion order used
by `pd.DataFrame(processed_data)`. -/
def headerFields : List String :=
  ["date", "mean_brightness", "median_brightness", "file"]

/-- Rendering of a rational statistic as the cell text written to the
delimited file. -/
def renderQ (q : ℚ) : String := toString q

/-- The cells of one table row, in field order. -/
def recordRow (r : BrightnessRecord) : List String :=
  [r.date, renderQ r.mean_brightness, renderQ r.median_brightness, r.file]

/-- The tabular structure built by `pd.DataFrame(processed_data)`:
a header naming the fields and one row of cells per record. -/
structure Table where
  header : List String
  rows : List (List String)
  deriving DecidableEq, Repr

/-- Model of `pd.DataFrame(processed_data)`. -/
def toTable (records : List BrightnessRecord) : Table :=
  { header := headerFields, rows := records.map recordRow }

/-- Outcome of the final `if processed_data:` block (lines 143-151):
either a file is written at a path, or a warning is printed. -/
structure ReportOutcome where
  written : Option (String × Table)
  warning : Bool
  deriving DecidableEq, Repr

/-- The final block of the script: write the summary CSV when at least
one record was produced, otherwise print a warning and write nothing. -/
def report (records : List BrightnessRecord) : ReportOutcome :=
  match records with
  | [] => { written := none, warning := true }
  | _ => { written := some (output_csv, toTable records), warning := false }

/-- Sample record used to instantiate hypotheses of proved claims on a
concrete input. -/
def sampleRecord : BrightnessRecord :=
  { date := "2023032"
    mean_brightness := 2
    median_brightness := 2
    file := "A.h5" }

/-! ## Model of the delimited-file layer

`df.to_csv(output_csv, index=False)` writes the header line followed by
one line per row, comma-separated, with minimal quoting: a cell
containing a delimiter, a quote, or a line break is wrapped in double
quotes, and embedded quotes are doubled.  Reading the file back parses
the same format.  Cells are modelled as character lists. -/

/-- The double-quote character. -/
def dquote : Char := Char.ofNat 34

/-- Characters that force a cell to be quoted (minimal quoting). -/
def isSpecialCell (c : Char) : Bool :=
  decide (c = ',' ∨ c = dquote ∨ c = '\n' ∨ c = '\r')

/-- Whether a cell needs quoting. -/
def needsQuote (cell : List Char) : Bool := cell.any isSpecialCell

/-- Double every embedded quote. -/
def escapeQuotes : List Char → List Char
  | [] => []
  | c :: cs =>
    if c = dquote then dquote :: dquote :: escapeQuotes cs
    else c :: escapeQuotes cs

/-- Serialize one cell with minimal quoting. -/
def renderCell (cell : List Char) : List Char :=
  if needsQuote cell then dquote :: (escapeQuotes cell ++ [dquote]) else cell

/-- Serialize one row, comma-separated. -/
def renderRowChars : List (List Char) → List Char
  | [] => []
  | [cell] => renderCell cell
  | cell :: rest => renderCell cell ++ ',' :: renderRowChars rest

/-- Serialize the whole file, one line per row, newline-terminated. -/
def renderCsv : List (List (List Char)) → List Char
  | [] => []
  | row :: rest => renderRowChars row ++ '\n' :: renderCsv rest

/-- Consume an unquoted cell: stop at the first `,` or line break. -/
def parseUnquoted : List Char → List Char × List Char
  | [] => ([], [])
  | c :: cs =>
    if c = ',' ∨ c = '\n' then ([], c :: cs)
    else (c :: (parseUnquoted cs).1, (parseUnquoted cs).2)

/-- Consume the body of a quoted cell up to its closing quote, undoubling
embedded quotes. -/
def parseQuotedBody : List Char → List Char × List Char
  | [] => ([], [])
  | c :: cs =>
    if c = dquote then
      match cs with
      | [] => ([], [])
      | d :: ds =>
        if d = dquote then (dquote :: (parseQuotedBody ds).1, (parseQuotedBody ds).2)
        else ([], cs)
    else (c :: (parseQuotedBody cs).1, (parseQuotedBody cs).2)

/-- Consume one cell, quoted or unquoted. -/
def parseCell : List Char → List Char × List Char
  | [] => ([], [])
  | c :: cs => if c = dquote then parseQuotedBody cs else parseUnquoted (c :: cs)

/-- Fuelled loop parsing the whole file into rows of cells.  Each step
consumes at least one character, so any fuel above the input length is
enough. -/
def parseCsvAux : Nat → List Char → List (List Char) → List (List (List Char)) →
    List (List (List Char))
  | 0, _, _, rows => rows
  | Nat.succ n, s, row, rows =>
    match s with
    | [] =>
      rows ++
        (match row with
        | [] => []
        | _ => [row])
    | _ :: _ =>
      match (parseCell s).2 with
      | [] => rows ++ [row ++ [(parseCell s).1]]
      | d :: rs =>
        if d = '\n' then parseCsvAux n rs [] (rows ++ [row ++ [(parseCell s).1]])
        else parseCsvAux n rs (row ++ [(parseCell s).1]) rows

/-- Parse a delimited file into rows of cells. -/
def parseCsv (s : List Char) : List (List (List Char)) :=
  parseCsvAux (s.length + 1) s [] []

/-- The cell matrix of a table: the header row followed by the data
rows. -/
def tableCells (t : Table) : List (List (List Char)) :=
  t.header.map String.toList :: t.rows.map (fun row => row.map String.toList)

/-- Model of `df.to_csv(output_csv, index=False)`: the character stream
written for a table (header first, no synthetic index column). -/
def writeCsvFile (t : Table) : List Char := renderCsv (tableCells t)

/-! ## Lemmas about the batch loop -/

lemma foldl_step_eq (raster : String → Except String (List ℚ)) (files : List String) :
    ∀ acc : List BrightnessRecord,
      files.foldl (fun acc fp =>
        match recordOf (processFile raster fp) with
        | some r => acc ++ [r]
        | none => acc) acc
      = acc ++ files.filterMap (fun fp => recordOf (processFile raster fp)) := by
  induction files with
  | nil => intro acc; simp
  | cons fp fs ih =>
    intro acc
    simp only [List.foldl_cons, List.filterMap_cons]
    cases hrec : recordOf (processFile raster fp) with
    | none => simp only [hrec]; exact ih acc
    | some r => simp only [hrec, ih (acc ++ [r]), List.append_assoc, List.singleton_append]

lemma runBatch_eq_filterMap (raster : String → Except String (List ℚ)) (files : List String) :
    runBatch raster files = files.filterMap (fun fp => recordOf (processFile raster fp)) := by
  simpa [runBatch] using foldl_step_eq raster files []

lemma processFile_not_h5 (raster : String → Except String (List ℚ)) (fp : String)
    (h : endsWithH5 fp = false) : processFile raster fp = FileOutcome.skipped := by
  simp [processFile, h]

lemma processFile_error (raster : String → Except String (List ℚ)) (fp : String) (e : String)
    (h5 : endsWithH5 fp = true) (he : raster fp = Except.error e) :
    processFile raster fp = FileOutcome.failed e := by
  simp [processFile, h5, he]

/-! ## Lemmas about the statistics -/

lemma mem_insertSorted (x a : ℚ) (l : List ℚ) :
    a ∈ insertSorted x l ↔ a = x ∨ a ∈ l := by
  induction l with
  | nil => simp [insertSorted]
  | cons y ys ih =>
    simp only [insertSorted]
    by_cases hxy : x ≤ y
    · simp [hxy]
    · rw [if_neg hxy]
      simp only [List.mem_cons, ih]
      tauto

lemma length_insertSorted (x : ℚ) (l : List ℚ) :
    (insertSorted x l).length = l.length + 1 := by
  induction l with
  | nil => rfl
  | cons y ys ih =>
    simp only [insertSorted]
    by_cases hxy : x ≤ y
    · simp [hxy]
    · simp [hxy, ih]

lemma mem_sortRat (a : ℚ) (l : List ℚ) : a ∈ sortRat l ↔ a ∈ l := by
  induction l with
  | nil => simp [sortRat]
  | cons y ys ih =>
    show a ∈ insertSorted y (sortRat ys) ↔ _
    rw [mem_insertSorted]
    simp [ih]

lemma length_sortRat (l : List ℚ) : (sortRat l).length = l.length := by
  induction l with
  | nil => rfl
  | cons y ys ih =>
    show (insertSorted y (sortRat ys)).length = _
    rw [length_insertSorted, ih]
    rfl

lemma getD_mem_of_lt (l : List ℚ) (i : Nat) (h : i < l.length) : l.getD i 0 ∈ l := by
  rw [List.getD_eq_getElem l 0 h]
  exact List.getElem_mem h

lemma npMean_pos (l : List ℚ) (hne : l ≠ []) (hpos : ∀ x ∈ l, 0 < x) : 0 < npMean l := by
  unfold npMean
  apply div_pos (List.sum_pos l hpos hne)
  exact_mod_cast List.length_pos.mpr hne

lemma npMedian_pos (l : List ℚ) (hne : l ≠ []) (hpos : ∀ x ∈ l, 0 < x) : 0 < npMedian l := by
  have hn : 0 < (sortRat l).length := by
    rw [length_sortRat]
    exact List.length_pos.mpr hne
  have hposs : ∀ x ∈ sortRat l, 0 < x := fun x hx => hpos x ((mem_sortRat x l).mp hx)
  have hmid : (sortRat l).length / 2 < (sortRat l).length := Nat.div_lt_self hn (by norm_num)
  have hmid' : (sortRat l).length / 2 - 1 < (sortRat l).length :=
    lt_of_le_of_lt (Nat.sub_le _ 1) hmid
  unfold npMedian
  by_cases hodd : (sortRat l).length % 2 = 1
  · rw [if_pos hodd]
    exact hposs _ (getD_mem_of_lt _ _ hmid)
  · rw [if_neg hodd]
    have h1 := hposs _ (getD_mem_of_lt _ _ hmid')
    have h2 := hposs _ (getD_mem_of_lt _ _ hmid)
    positivity

/-! ## Claims -/

lemma processFile_ok (raster : String → Except String (List ℚ)) (fp : String) (px : List ℚ)
    (h5 : endsWithH5 fp = true) (hok : raster fp = Except.ok px) :
    processFile raster fp =
      (if 0 < (px.filter (fun x => decide (0 < x))).length then
        match dateToken (pyBasename fp) with
        | none => FileOutcome.failed "IndexError"
        | some date_str =>
          FileOutcome.record
            { date := date_str
              mean_brightness := npMean (px.filter (fun x => decide (0 < x)))
              median_brightness := npMedian (px.filter (fun x => decide (0 < x)))
              file := pyBasename fp }
      else FileOutcome.empty) := by
  simp [processFile, h5, hok]

/-- Claim C1: the emitted statistics are a function of the strictly
positive pixel values alone — two clipped arrays with identical strictly
positive subsequences produce identical outcomes, an emitted record
carries exactly the mean and median of the positive subset, and an array
with no strictly positive value emits no record. -/
theorem claim_C1 (r1 r2 : String → Except String (List ℚ)) (fp : String) (px1 px2 : List ℚ)
    (h1 : r1 fp = Except.ok px1) (h2 : r2 fp = Except.ok px2)
    (hsame : px1.filter (fun x => decide (0 < x)) = px2.filter (fun x => decide (0 < x))) :
    processFile r1 fp = processFile r2 fp ∧
    (∀ rec, processFile r1 fp = FileOutcome.record rec →
      rec.mean_brightness = npMean (px1.filter (fun x => decide (0 < x))) ∧
      rec.median_brightness = npMedian (px1.filter (fun x => decide (0 < x)))) ∧
    (px1.filter (fun x => decide (0 < x)) = [] →
      ∀ rec, processFile r1 fp ≠ FileOutcome.record rec) := by
  by_cases h5 : endsWithH5 fp
  · refine ⟨?_, ?_, ?_⟩
    · rw [processFile_ok r1 fp px1 h5 h1, processFile_ok r2 fp px2 h5 h2, hsame]
    · intro rec hrec
      rw [processFile_ok r1 fp px1 h5 h1] at hrec
      by_cases hlen : 0 < (px1.filter (fun x => decide (0 < x))).length
      · rw [if_pos hlen] at hrec
        cases hdt : dateToken (pyBasename fp) with
        | none => rw [hdt] at hrec; exact FileOutcome.noConfusion hrec
        | some d =>
          rw [hdt] at hrec
          have := FileOutcome.record.inj hrec
          rw [← this]
          exact ⟨rfl, rfl⟩
      · rw [if_neg hlen] at hrec
        exact FileOutcome.noConfusion hrec
    · intro hfil rec
      rw [processFile_ok r1 fp px1 h5 h1, hfil]
      simp
  · have e1 := processFile_not_h5 r1 fp (Bool.not_eq_true _ ▸ eq_false_of_ne_true h5)
    have e2 := processFile_not_h5 r2 fp (Bool.not_eq_true _ ▸ eq_false_of_ne_true h5)
    rw [e1, e2]
    refine ⟨rfl, ?_, ?_⟩
    · intro rec hrec
      exact FileOutcome.noConfusion hrec
    · intro _ rec hrec
      exact FileOutcome.noConfusion hrec

/-- Witness for C1: two clipped arrays differing only in non-positive
values, on a degenerate `.h5` filename. -/
theorem claim_C1_witness :
    ((fun _ : String => (Except.ok [1, -2, 3, 0] : Except String (List ℚ))) "A.h5"
        = Except.ok [1, -2, 3, 0] ∧
      (fun _ : String => (Except.ok [1, 3] : Except String (List ℚ))) "A.h5"
        = Except.ok [1, 3] ∧
      ([1, -2, 3, 0] : List ℚ).filter (fun x => decide (0 < x))
        = ([1, 3] : List ℚ).filter (fun x => decide (0 < x))) ∧
    (processFile (fun _ => Except.ok [1, -2, 3, 0]) "A.h5"
        = processFile (fun _ => Except.ok [1, 3]) "A.h5" ∧
      (∀ rec, processFile (fun _ : String => Except.ok [1, -2, 3, 0]) "A.h5"
          = FileOutcome.record rec →
        rec.mean_brightness = npMean (([1, -2, 3, 0] : List ℚ).filter (fun x => decide (0 < x))) ∧
        rec.median_brightness
          = npMedian (([1, -2, 3, 0] : List ℚ).filter (fun x => decide (0 < x)))) ∧
      (([1, -2, 3, 0] : List ℚ).filter (fun x => decide (0 < x)) = [] →
        ∀ rec, processFile (fun _ : String => Except.ok [1, -2, 3, 0]) "A.h5"
          ≠ FileOutcome.record rec)) :=
  ⟨⟨rfl, rfl, by decide⟩,
    claim_C1 (fun _ => Except.ok [1, -2, 3, 0]) (fun _ => Except.ok [1, 3]) "A.h5"
      [1, -2, 3, 0] [1, 3] rfl rfl (by decide)⟩

/-- Claim C9: every emitted record has strictly positive mean and median,
because both statistics are taken over a non-empty list of strictly
positive values. -/
theorem claim_C9 (raster : String → Except String (List ℚ)) (fp : String)
    (rec : BrightnessRecord) (h : processFile raster fp = FileOutcome.record rec) :
    0 < rec.mean_brightness ∧ 0 < rec.median_brightness := by
  by_cases h5 : endsWithH5 fp
  case neg =>
    rw [processFile_not_h5 raster fp (Bool.not_eq_true _ ▸ eq_false_of_ne_true h5)] at h
    exact FileOutcome.noConfusion h
  case pos =>
    cases hr : raster fp with
    | error e =>
      rw [processFile_error raster fp e h5 hr] at h
      exact FileOutcome.noConfusion h
    | ok px =>
      rw [processFile_ok raster fp px h5 hr] at h
      by_cases hlen : 0 < (px.filter (fun x => decide (0 < x))).length
      case neg =>
        rw [if_neg hlen] at h
        exact FileOutcome.noConfusion h
      case pos =>
        rw [if_pos hlen] at h
        have hne : px.filter (fun x => decide (0 < x)) ≠ [] :=
          List.length_pos.mp hlen
        have hpos : ∀ x ∈ px.filter (fun x => decide (0 < x)), 0 < x := by
          intro x hx
          exact of_decide_eq_true (List.mem_filter.mp hx).2
        cases hdt : dateToken (pyBasename fp) with
        | none =>
          rw [hdt] at h
          exact FileOutcome.noConfusion h
        | some d =>
          rw [hdt] at h
          have hinj := FileOutcome.record.inj h
          rw [← hinj]
          exact ⟨npMean_pos _ hne hpos, npMedian_pos _ hne hpos⟩

/-- Witness for C9: the record of a file with valid pixel values
`[1, 2, 3]` has mean 2 and median 2, both positive. -/
theorem claim_C9_witness :
    processFile (fun _ : String => Except.ok [1, 2, 3]) "A.h5"
        = FileOutcome.record ⟨"5", 2, 2, "A.h5"⟩ ∧
    (0 < (⟨"5", 2, 2, "A.h5"⟩ : BrightnessRecord).mean_brightness ∧
      0 < (⟨"5", 2, 2, "A.h5"⟩ : BrightnessRecord).median_brightness) := by
  have hrec : processFile (fun _ : String => Except.ok [1, 2, 3]) "A.h5"
      = FileOutcome.record ⟨"5", 2, 2, "A.h5"⟩ := by
    simp [processFile, endsWithH5, dateToken, pyBasename, pySplit, pySplitChar,
      basenameChars, npMean, npMedian, sortRat, insertSorted, List.filter]
    norm_num
    decide
  exact ⟨hrec, claim_C9 (fun _ => Except.ok [1, 2, 3]) "A.h5" ⟨"5", 2, 2, "A.h5"⟩ hrec⟩

/-- Claim C2: date-token extraction is a pure function of the filename —
split the basename on `.`, take the field at index 1, drop its first
character; on `VNP46A2.A2023032.h10v04.001.h5` the token is `2023032`. -/
theorem claim_C2 :
    dateToken (pyBasename "VNP46A2.A2023032.h10v04.001.h5") = some "2023032" := by
  decide

/-- Claim C3: a per-file error is isolated — the exception is caught, a
diagnostic is emitted, no record is produced for that file, and the batch
result is exactly the records of the other files, in order. -/
theorem claim_C3 (raster : String → Except String (List ℚ)) (bad e : String)
    (pre post : List String)
    (h5 : endsWithH5 bad = true) (he : raster bad = Except.error e) :
    processFile raster bad = FileOutcome.failed e ∧
    emitsDiagnostic (processFile raster bad) = true ∧
    recordOf (processFile raster bad) = none ∧
    runBatch raster (pre ++ bad :: post) = runBatch raster pre ++ runBatch raster post ∧
    runBatch raster (pre ++ bad :: post) = runBatch raster (pre ++ post) := by
  have hfail := processFile_error raster bad e h5 he
  refine ⟨hfail, by rw [hfail]; rfl, by rw [hfail]; rfl, ?_, ?_⟩
  · simp [runBatch_eq_filterMap, List.filterMap_cons, hfail, recordOf]
  · simp [runBatch_eq_filterMap, List.filterMap_cons, hfail, recordOf]

/-- Witness for C3 at a concrete erroring raster and file list. -/
theorem claim_C3_witness :
    (endsWithH5 "bad.h5" = true ∧
      (fun _ : String => (Except.error "io" : Except String (List ℚ))) "bad.h5"
        = Except.error "io") ∧
    (processFile (fun _ => Except.error "io") "bad.h5" = FileOutcome.failed "io" ∧
      emitsDiagnostic (processFile (fun _ => Except.error "io") "bad.h5") = true ∧
      recordOf (processFile (fun _ => Except.error "io") "bad.h5") = none ∧
      runBatch (fun _ => Except.error "io") (["x.txt"] ++ "bad.h5" :: [])
        = runBatch (fun _ => Except.error "io") ["x.txt"]
          ++ runBatch (fun _ => Except.error "io") [] ∧
      runBatch (fun _ => Except.error "io") (["x.txt"] ++ "bad.h5" :: [])
        = runBatch (fun _ => Except.error "io") (["x.txt"] ++ [])) :=
  ⟨⟨by decide, rfl⟩, claim_C3 (fun _ => Except.error "io") "bad.h5" "io" ["x.txt"] []
    (by decide) rfl⟩

/-- Claim C4: when no file yields a record, the batch result is empty, no
summary file is written and the warning is reported. -/
theorem claim_C4 (raster : String → Except String (List ℚ)) (files : List String)
    (hall : ∀ fp ∈ files, recordOf (processFile raster fp) = none) :
    runBatch raster files = [] ∧
    report (runBatch raster files) = { written := none, warning := true } := by
  have h : runBatch raster files = [] := by
    rw [runBatch_eq_filterMap]
    exact List.filterMap_eq_nil_iff.mpr hall
  exact ⟨h, by rw [h]; rfl⟩

/-- Witness for C4: one failing `.h5` file and one silently excluded file. -/
theorem claim_C4_witness :
    (∀ fp ∈ ["bad.h5", "x.txt"],
      recordOf (processFile (fun _ => (Except.error "io" : Except String (List ℚ))) fp)
        = none) ∧
    (runBatch (fun _ => Except.error "io") ["bad.h5", "x.txt"] = [] ∧
      report (runBatch (fun _ => Except.error "io") ["bad.h5", "x.txt"])
        = { written := none, warning := true }) :=
  ⟨by decide, claim_C4 (fun _ => Except.error "io") ["bad.h5", "x.txt"] (by decide)⟩

/-- Claim C5: with at least one record, the reporter writes the table at
the fixed path `viirs_data/viirs_philadelphia_summary.csv`, the header is
exactly {date, mean_brightness, median_brightness, file} in that order
(no synthetic index column), and the rows are the records in insertion
order. -/
theorem claim_C5 (records : List BrightnessRecord) (h : records ≠ []) :
    report records = { written := some (output_csv, toTable records), warning := false } ∧
    output_csv = "viirs_data/viirs_philadelphia_summary.csv" ∧
    (toTable records).header = ["date", "mean_brightness", "median_brightness", "file"] ∧
    (toTable records).rows = records.map recordRow ∧
    ∀ i : Nat, ((toTable records).rows)[i]? = (records[i]?).map recordRow := by
  refine ⟨?_, rfl, rfl, rfl, ?_⟩
  · cases records with
    | nil => exact absurd rfl h
    | cons r rs => rfl
  · intro i
    simp [toTable]

/-- Witness for C5 at a one-record sequence. -/
theorem claim_C5_witness :
    ([sampleRecord] ≠ ([] : List BrightnessRecord)) ∧
    (report [sampleRecord]
      = { written := some (output_csv, toTable [sampleRecord]), warning := false } ∧
      output_csv = "viirs_data/viirs_philadelphia_summary.csv" ∧
      (toTable [sampleRecord]).header
        = ["date", "mean_brightness", "median_brightness", "file"] ∧
      (toTable [sampleRecord]).rows = [sampleRecord].map recordRow ∧
      ∀ i : Nat, ((toTable [sampleRecord]).rows)[i]? = ([sampleRecord][i]?).map recordRow) :=
  ⟨by decide, claim_C5 [sampleRecord] (by decide)⟩

/-- Claim C6: a downloaded path not ending in `.h5` is silently excluded:
the outcome is `skipped`, no record, no diagnostic, and the batch over the
remaining files is unchanged. -/
theorem claim_C6 (raster : String → Except String (List ℚ)) (fp : String)
    (pre post : List String) (h : endsWithH5 fp = false) :
    processFile raster fp = FileOutcome.skipped ∧
    recordOf (processFile raster fp) = none ∧
    emitsDiagnostic (processFile raster fp) = false ∧
    (∀ e, processFile raster fp ≠ FileOutcome.failed e) ∧
    runBatch raster (pre ++ fp :: post) = runBatch raster (pre ++ post) := by
  have hs := processFile_not_h5 raster fp h
  refine ⟨hs, by rw [hs]; rfl, by rw [hs]; rfl, ?_, ?_⟩
  · intro e hcontra
    rw [hs] at hcontra
    exact FileOutcome.noConfusion hcontra
  · simp [runBatch_eq_filterMap, List.filterMap_cons, hs, recordOf]

/-- Witness for C6 at a concrete non-`.h5` path. -/
theorem claim_C6_witness :
    endsWithH5 "notes.txt" = false ∧
    (processFile (fun _ => (Except.ok [] : Except String (List ℚ))) "notes.txt"
        = FileOutcome.skipped ∧
      recordOf (processFile (fun _ => Except.ok []) "notes.txt") = none ∧
      emitsDiagnostic (processFile (fun _ => Except.ok []) "notes.txt") = false ∧
      (∀ e, processFile (fun _ => (Except.ok [] : Except String (List ℚ))) "notes.txt"
        ≠ FileOutcome.failed e) ∧
      runBatch (fun _ => Except.ok []) ([] ++ "notes.txt" :: [])
        = runBatch (fun _ => Except.ok []) ([] ++ [])) :=
  ⟨by decide, claim_C6 (fun _ => Except.ok []) "notes.txt" [] [] (by decide)⟩

/-! ## Lemmas about the filename conventions -/

lemma pySplitChar_ne_nil (sep : Char) (l : List Char) : pySplitChar sep l ≠ [] := by
  induction l with
  | nil => simp [pySplitChar]
  | cons c rest ih =>
    simp only [pySplitChar]
    by_cases hc : c = sep
    · simp [hc]
    · rw [if_neg hc]
      cases hr : pySplitChar sep rest with
      | nil => simp
      | cons h t => simp

lemma two_le_pySplitChar_length (sep : Char) (l : List Char) (hmem : sep ∈ l) :
    2 ≤ (pySplitChar sep l).length := by
  induction l with
  | nil => cases hmem
  | cons c rest ih =>
    simp only [pySplitChar]
    by_cases hc : c = sep
    · rw [if_pos hc]
      have := List.length_pos.mpr (pySplitChar_ne_nil sep rest)
      simp only [List.length_cons]
      omega
    · rw [if_neg hc]
      have hmem' : sep ∈ rest := by
        cases List.mem_cons.mp hmem with
        | inl h => exact absurd h.symm hc
        | inr h => exact h
      have h2 := ih hmem'
      cases hr : pySplitChar sep rest with
      | nil => exact absurd hr (pySplitChar_ne_nil sep rest)
      | cons h t =>
        rw [hr] at h2
        simpa using h2

lemma basenameChars_go (v : List Char) (hv : ∀ c ∈ v, c ≠ '/') :
    ∀ acc : List Char,
      v.foldl (fun acc c => if c = '/' then [] else acc ++ [c]) acc = acc ++ v := by
  induction v with
  | nil => intro acc; simp
  | cons c cs ih =>
    intro acc
    have hc : c ≠ '/' := hv c (List.mem_cons_self c cs)
    simp only [List.foldl_cons, if_neg hc]
    rw [ih (fun d hd => hv d (List.mem_cons_of_mem c hd)) (acc ++ [c])]
    simp

lemma basenameChars_append (u v : List Char) (hv : ∀ c ∈ v, c ≠ '/') :
    basenameChars (u ++ v) = basenameChars u ++ v := by
  unfold basenameChars
  rw [List.foldl_append]
  exact basenameChars_go v hv _

lemma toList_mk (l : List Char) : (String.mk l).toList = l := rfl

/-- Claim C10: for every path ending in `.h5`, splitting the basename on
`.` yields at least two fields, so the index-1 date-token extraction is
always defined; in the degenerate case `A.h5` the token is `5`. -/
theorem claim_C10 (s : String) (h : endsWithH5 s = true) :
    (2 ≤ (pySplit '.' (pyBasename s)).length ∧
      (dateToken (pyBasename s)).isSome = true) ∧
    dateToken (pyBasename "A.h5") = some "5" := by
  refine ⟨?_, by decide⟩
  have hsuf : ['.', 'h', '5'] <:+ s.toList := by
    have h2 : List.isSuffixOf ['.', 'h', '5'] s.toList = true := h
    exact List.isSuffixOf_iff_suffix.mp h2
  obtain ⟨u, hu⟩ := hsuf
  have hb : basenameChars s.toList = basenameChars u ++ ['.', 'h', '5'] := by
    rw [← hu]
    exact basenameChars_append u _ (by decide)
  have hdot : '.' ∈ basenameChars s.toList := by
    rw [hb]
    simp
  have hlen2 : 2 ≤ (pySplitChar '.' (basenameChars s.toList)).length :=
    two_le_pySplitChar_length _ _ hdot
  have hlenS : (pySplit '.' (pyBasename s)).length
      = (pySplitChar '.' (basenameChars s.toList)).length := by
    simp [pySplit, pyBasename, toList_mk]
  constructor
  · rw [hlenS]
    exact hlen2
  · have h1 : 1 < (pySplit '.' (pyBasename s)).length := by omega
    rw [dateToken, List.getElem?_eq_getElem h1]
    rfl

/-- Witness for C10 at the degenerate basename `A.h5`. -/
theorem claim_C10_witness :
    endsWithH5 "A.h5" = true ∧
    ((2 ≤ (pySplit '.' (pyBasename "A.h5")).length ∧
      (dateToken (pyBasename "A.h5")).isSome = true) ∧
    dateToken (pyBasename "A.h5") = some "5") :=
  ⟨by decide, claim_C10 "A.h5" (by decide)⟩

/-! ## Lemmas about the delimited-file layer -/

lemma parseUnquoted_length (s : List Char) : (parseUnquoted s).2.length ≤ s.length := by
  induction s with
  | nil => simp [parseUnquoted]
  | cons c cs ih =>
    simp only [parseUnquoted]
    by_cases hc : c = ',' ∨ c = '\n'
    · rw [if_pos hc]
    · rw [if_neg hc]
      simp only [List.length_cons]
      omega

lemma escapeQuotes_cons_dd (cs : List Char) :
    escapeQuotes (dquote :: cs) = dquote :: dquote :: escapeQuotes cs := by
  simp [escapeQuotes]

lemma escapeQuotes_cons_ne (c : Char) (cs : List Char) (hc : c ≠ dquote) :
    escapeQuotes (c :: cs) = c :: escapeQuotes cs := by
  simp [escapeQuotes, hc]

lemma parseQuotedBody_cons_ne (c : Char) (cs : List Char) (hc : c ≠ dquote) :
    parseQuotedBody (c :: cs) = (c :: (parseQuotedBody cs).1, (parseQuotedBody cs).2) := by
  rw [parseQuotedBody.eq_def]
  simp [hc]

lemma parseQuotedBody_dd (xs : List Char) :
    parseQuotedBody (dquote :: dquote :: xs)
      = (dquote :: (parseQuotedBody xs).1, (parseQuotedBody xs).2) := by
  rw [parseQuotedBody.eq_def]
  simp

lemma parseQuotedBody_close (d : Char) (rs : List Char) (hd : d ≠ dquote) :
    parseQuotedBody (dquote :: d :: rs) = ([], d :: rs) := by
  rw [parseQuotedBody.eq_def]
  simp [hd]

lemma parseQuotedBody_close_nil : parseQuotedBody [dquote] = ([], []) := by
  rw [parseQuotedBody.eq_def]
  simp

lemma parseQuotedBody_length (s : List Char) : (parseQuotedBody s).2.length ≤ s.length := by
  have H : ∀ n (s : List Char), s.length ≤ n → (parseQuotedBody s).2.length ≤ s.length := by
    intro n
    induction n with
    | zero =>
      intro s hs
      have hnil : s = [] := List.length_eq_zero.mp (Nat.le_zero.mp hs)
      subst hnil
      simp [parseQuotedBody]
    | succ n ih =>
      intro s hs
      cases s with
      | nil => simp [parseQuotedBody]
      | cons c cs =>
        by_cases hc : c = dquote
        · subst hc
          cases cs with
          | nil =>
            rw [parseQuotedBody_close_nil]
            simp
          | cons d ds =>
            by_cases hd : d = dquote
            · subst hd
              rw [parseQuotedBody_dd]
              have hds : ds.length ≤ n := by
                simp only [List.length_cons] at hs
                omega
              have := ih ds hds
              simp only [List.length_cons]
              omega
            · rw [parseQuotedBody_close d ds hd]
              simp
        · rw [parseQuotedBody_cons_ne c cs hc]
          have hcs : cs.length ≤ n := by
            simp only [List.length_cons] at hs
            omega
          have := ih cs hcs
          simp only [List.length_cons]
          omega
  exact H s.length s (le_refl _)

lemma parseCell_length (s : List Char) : (parseCell s).2.length ≤ s.length := by
  cases s with
  | nil => simp [parseCell]
  | cons c cs =>
    simp only [parseCell]
    by_cases hc : c = dquote
    · rw [if_pos hc]
      have := parseQuotedBody_length cs
      simp only [List.length_cons]
      omega
    · rw [if_neg hc]
      exact parseUnquoted_length (c :: cs)

lemma parseUnquoted_append (cell rest : List Char)
    (hcell : ∀ c ∈ cell, ¬(c = ',' ∨ c = '\n'))
    (hrest : rest = [] ∨ ∃ d rs, rest = d :: rs ∧ (d = ',' ∨ d = '\n')) :
    parseUnquoted (cell ++ rest) = (cell, rest) := by
  induction cell with
  | nil =>
    rcases hrest with rfl | ⟨d, rs, rfl, hd⟩
    · rfl
    · simp [parseUnquoted, hd]
  | cons c cs ih =>
    have hc := hcell c (List.mem_cons_self c cs)
    simp only [List.cons_append, parseUnquoted, if_neg hc, List.append_eq]
    rw [ih (fun d hd => hcell d (List.mem_cons_of_mem c hd))]

lemma parseQuotedBody_escape (cell rest : List Char)
    (hrest : rest = [] ∨ ∃ d rs, rest = d :: rs ∧ d ≠ dquote) :
    parseQuotedBody (escapeQuotes cell ++ dquote :: rest) = (cell, rest) := by
  induction cell with
  | nil =>
    rcases hrest with rfl | ⟨d, rs, rfl, hd⟩
    · simp only [escapeQuotes, List.nil_append]
      exact parseQuotedBody_close_nil
    · simp only [escapeQuotes, List.nil_append]
      exact parseQuotedBody_close d rs hd
  | cons c cs ih =>
    by_cases hc : c = dquote
    · subst hc
      rw [escapeQuotes_cons_dd, List.cons_append, List.cons_append]
      rw [parseQuotedBody_dd, ih]
    · rw [escapeQuotes_cons_ne c cs hc, List.cons_append]
      rw [parseQuotedBody_cons_ne c _ hc, ih]

lemma no_special_of_needsQuote_false (cell : List Char) (h : needsQuote cell = false) :
    ∀ c ∈ cell, ¬(c = ',' ∨ c = dquote ∨ c = '\n' ∨ c = '\r') := by
  intro c hc
  have h1 : ¬ isSpecialCell c = true := by
    rw [needsQuote] at h
    exact List.any_eq_false.mp h c hc
  have h2 : isSpecialCell c = false := eq_false_of_ne_true h1
  simp only [isSpecialCell, decide_eq_false_iff_not] at h2
  exact h2

lemma parseCell_render (cell rest : List Char)
    (hrest : rest = [] ∨ ∃ d rs, rest = d :: rs ∧ (d = ',' ∨ d = '\n')) :
    parseCell (renderCell cell ++ rest) = (cell, rest) := by
  by_cases hq : needsQuote cell
  · rw [renderCell, if_pos hq]
    have hshape : (dquote :: (escapeQuotes cell ++ [dquote])) ++ rest
        = dquote :: (escapeQuotes cell ++ dquote :: rest) := by simp
    rw [hshape]
    have hpc : parseCell (dquote :: (escapeQuotes cell ++ dquote :: rest))
        = parseQuotedBody (escapeQuotes cell ++ dquote :: rest) := by
      simp [parseCell]
    rw [hpc]
    apply parseQuotedBody_escape
    rcases hrest with rfl | ⟨d, rs, rfl, hd⟩
    · exact Or.inl rfl
    · refine Or.inr ⟨d, rs, rfl, ?_⟩
      rcases hd with rfl | rfl
      · decide
      · decide
  · rw [renderCell, if_neg hq]
    have hns := no_special_of_needsQuote_false cell (Bool.not_eq_true _ ▸ eq_false_of_ne_true hq)
    cases cell with
    | nil =>
      simp only [List.nil_append]
      rcases hrest with rfl | ⟨d, rs, rfl, hd⟩
      · rfl
      · have hdq : d ≠ dquote := by
          rcases hd with rfl | rfl <;> decide
        simp only [parseCell, if_neg hdq]
        simp [parseUnquoted, hd]
    | cons c cs =>
      have hc := hns c (List.mem_cons_self c cs)
      have hcq : c ≠ dquote := fun hh => hc (Or.inr (Or.inl hh))
      simp only [List.cons_append, parseCell, if_neg hcq]
      rw [← List.cons_append]
      apply parseUnquoted_append
      · intro x hx
        have := hns x hx
        tauto
      · exact hrest

lemma parseCsvAux_fuel (f1 f2 : Nat) (s : List Char) (row : List (List Char))
    (acc : List (List (List Char))) (h1 : s.length < f1) (h2 : s.length < f2) :
    parseCsvAux f1 s row acc = parseCsvAux f2 s row acc := by
  induction f1 generalizing f2 s row acc with
  | zero => omega
  | succ n ih =>
    cases f2 with
    | zero => omega
    | succ m =>
      cases s with
      | nil => rfl
      | cons c cs =>
        simp only [parseCsvAux]
        cases hp : (parseCell (c :: cs)).2 with
        | nil => rfl
        | cons d rs =>
          have hrs : rs.length < n ∧ rs.length < m := by
            have hle := parseCell_length (c :: cs)
            rw [hp] at hle
            simp only [List.length_cons] at hle h1 h2
            omega
          simp only [hp]
          by_cases hd : d = '\n'
          · simp only [if_pos hd]
            exact ih m rs [] _ hrs.1 hrs.2
          · simp only [if_neg hd]
            exact ih m rs _ _ hrs.1 hrs.2

lemma parseCsvAux_step_newline (n : Nat) (s cell rest : List Char)
    (currow : List (List Char)) (acc : List (List (List Char)))
    (hs : s ≠ []) (hpc : parseCell s = (cell, '\n' :: rest)) :
    parseCsvAux (n + 1) s currow acc = parseCsvAux n rest [] (acc ++ [currow ++ [cell]]) := by
  obtain ⟨c0, cs0, rfl⟩ := List.exists_cons_of_ne_nil hs
  simp only [parseCsvAux, hpc, if_pos]

lemma parseCsvAux_step_comma (n : Nat) (s cell rest : List Char)
    (currow : List (List Char)) (acc : List (List (List Char)))
    (hs : s ≠ []) (hpc : parseCell s = (cell, ',' :: rest)) :
    parseCsvAux (n + 1) s currow acc = parseCsvAux n rest (currow ++ [cell]) acc := by
  obtain ⟨c0, cs0, rfl⟩ := List.exists_cons_of_ne_nil hs
  have hcomma : (',' : Char) ≠ '\n' := by decide
  simp only [parseCsvAux, hpc, if_neg hcomma]

lemma parseCsvAux_row (row : List (List Char)) (hne : row ≠ []) (rest : List Char)
    (currow : List (List Char)) (acc : List (List (List Char))) (f : Nat)
    (hf : (renderRowChars row ++ '\n' :: rest).length < f) :
    parseCsvAux f (renderRowChars row ++ '\n' :: rest) currow acc
      = parseCsvAux (rest.length + 1) rest [] (acc ++ [currow ++ row]) := by
  induction row generalizing currow acc f with
  | nil => exact absurd rfl hne
  | cons cell cells ih =>
    cases f with
    | zero =>
      exfalso
      omega
    | succ n =>
      cases cells with
      | nil =>
        have hinp0 : renderRowChars [cell] ++ '\n' :: rest = renderCell cell ++ '\n' :: rest := rfl
        rw [hinp0] at hf ⊢
        have hpc : parseCell (renderCell cell ++ '\n' :: rest) = (cell, '\n' :: rest) :=
          parseCell_render cell _ (Or.inr ⟨'\n', rest, rfl, Or.inr rfl⟩)
        rw [parseCsvAux_step_newline n _ cell rest currow acc (by simp) hpc]
        have hrest : rest.length < n := by
          simp only [List.length_append, List.length_cons] at hf
          omega
        exact parseCsvAux_fuel n (rest.length + 1) rest [] _ hrest (Nat.lt_succ_self _)
      | cons cell2 cells2 =>
        have hinp0 : renderRowChars (cell :: cell2 :: cells2) ++ '\n' :: rest
            = renderCell cell ++ ',' :: (renderRowChars (cell2 :: cells2) ++ '\n' :: rest) := by
          simp [renderRowChars]
        rw [hinp0] at hf ⊢
        have hpc : parseCell (renderCell cell
              ++ ',' :: (renderRowChars (cell2 :: cells2) ++ '\n' :: rest))
            = (cell, ',' :: (renderRowChars (cell2 :: cells2) ++ '\n' :: rest)) :=
          parseCell_render cell _ (Or.inr ⟨',', _, rfl, Or.inl rfl⟩)
        rw [parseCsvAux_step_comma n _ cell _ currow acc (by simp) hpc]
        have hlen' : (renderRowChars (cell2 :: cells2) ++ '\n' :: rest).length < n := by
          simp only [List.length_append, List.length_cons] at hf ⊢
          omega
        rw [ih (by simp) (currow ++ [cell]) acc n hlen']
        have hassoc : (currow ++ [cell]) ++ cell2 :: cells2
            = currow ++ cell :: cell2 :: cells2 := by
          simp
        rw [hassoc]

lemma parseCsvAux_renderCsv (rows : List (List (List Char)))
    (h : ∀ row ∈ rows, row ≠ []) (acc : List (List (List Char))) (f : Nat)
    (hf : (renderCsv rows).length < f) :
    parseCsvAux f (renderCsv rows) [] acc = acc ++ rows := by
  induction rows generalizing acc f with
  | nil =>
    cases f with
    | zero => omega
    | succ n => simp [renderCsv, parseCsvAux]
  | cons r rs ih =>
    have hr : r ≠ [] := h r (List.mem_cons_self r rs)
    have hrw : renderCsv (r :: rs) = renderRowChars r ++ '\n' :: renderCsv rs := rfl
    rw [hrw] at hf ⊢
    rw [parseCsvAux_row r hr (renderCsv rs) [] acc f hf]
    rw [ih (fun row hrow => h row (List.mem_cons_of_mem r hrow)) _ _ (Nat.lt_succ_self _)]
    simp

lemma parseCsv_renderCsv (rows : List (List (List Char))) (h : ∀ row ∈ rows, row ≠ []) :
    parseCsv (renderCsv rows) = rows := by
  unfold parseCsv
  rw [parseCsvAux_renderCsv rows h [] _ (Nat.lt_succ_self _)]
  rfl

/-- Claim C8: writing the summary table (header first, no index column,
minimal quoting) and parsing it back yields exactly the same header and
the same rows of cell values, for any non-empty record sequence. -/
theorem claim_C8 (records : List BrightnessRecord) (h : records ≠ []) :
    parseCsv (writeCsvFile (toTable records)) = tableCells (toTable records) ∧
    tableCells (toTable records)
      = headerFields.map String.toList
          :: records.map (fun r => (recordRow r).map String.toList) := by
  constructor
  · rw [writeCsvFile]
    apply parseCsv_renderCsv
    intro row hrow
    rcases List.mem_cons.mp hrow with rfl | hrow'
    · simp [toTable, headerFields]
    · simp only [toTable, List.mem_map] at hrow'
      obtain ⟨cells, ⟨r, _, rfl⟩, rfl⟩ := hrow'
      simp [recordRow]
  · simp [tableCells, toTable, List.map_map]

/-- Witness for C8: the round trip evaluated on a one-record table. -/
theorem claim_C8_witness :
    ([sampleRecord] ≠ ([] : List BrightnessRecord)) ∧
    (parseCsv (writeCsvFile (toTable [sampleRecord])) = tableCells (toTable [sampleRecord]) ∧
      tableCells (toTable [sampleRecord])
        = headerFields.map String.toList
            :: [sampleRecord].map (fun r => (recordRow r).map String.toList)) :=
  ⟨by decide, claim_C8 [sampleRecord] (by decide)⟩

end Data7
